import Mathlib

/-!
Verification development for the ink-stroke-modeler stroke-modeling pipeline
(Rust sources: src/params.rs, src/engine.rs, src/position_modeler.rs,
src/state_modeler.rs, src/utils.rs, src/results.rs).

The Rust code computes with `f32`/`f64`; this shallow embedding models every
scalar as an exact rational (`ℚ`), so the float-to-float casts in the source
(`as f32`, `as f64`) are identities here, and `f32::sqrt` is modelled by an
integer-Newton square root on numerator and denominator (`sqrtQ`), exact on
every rational whose square root is rational — which covers every concrete
input evaluated in this file.  Machine integers: `usize` fields are `ℕ`;
the `as i32` saturating cast is modelled by `satI32`.
-/

set_option allowUnsafeReducibility true
attribute [local semireducible] Rat.add Rat.mul Rat.sub Rat.inv Rat.ofScientific

/-- Fuel-driven integer Newton iteration for the floor square root
(kernel-reducible replacement for the well-founded `Nat.sqrt`). -/
def isqrtAux (n : ℕ) : ℕ → ℕ → ℕ
  | x, 0 => x
  | x, fuel + 1 =>
    let y := (x + n / x) / 2
    if y < x then isqrtAux n y fuel else x

/-- Integer square root used by `sqrtQ`. -/
def isqrt (n : ℕ) : ℕ :=
  if n ≤ 1 then n else isqrtAux n n 1000

/-- Models `f32::sqrt` on the exact-rational embedding: the square root of a
nonnegative rational, computed exactly whenever that root is rational (the
case for every concrete evaluation in this file). -/
def sqrtQ (q : ℚ) : ℚ :=
  if q ≤ 0 then 0 else (isqrt q.num.toNat : ℚ) / (isqrt q.den : ℚ)

/-- Rust `f32::clamp(0.0, 1.0)`. -/
def clamp01 (x : ℚ) : ℚ := min (max x 0) 1

/-- Embeds `utils::normalize01_32`. -/
def normalize01_32 (start stop value : ℚ) : ℚ :=
  if start = stop then
    if value > start then 1 else 0
  else
    clamp01 ((value - start) / (stop - start))

/-- Embeds `utils::interp`. -/
def interp (start stop amount : ℚ) : ℚ :=
  start + (stop - start) * clamp01 amount

/-- Embeds `utils::interp2` (componentwise, amount clamped once per component
exactly as in the source). -/
def interp2 (start stop : ℚ × ℚ) (amount : ℚ) : ℚ × ℚ :=
  (start.1 + clamp01 amount * (stop.1 - start.1),
   start.2 + clamp01 amount * (stop.2 - start.2))

/-- Embeds `utils::dot`. -/
def dotQ (x y : ℚ × ℚ) : ℚ := x.1 * y.1 + x.2 * y.2

/-- Embeds `utils::nearest_point_on_segment`. -/
def nearest_point_on_segment (start stop point : ℚ × ℚ) : ℚ :=
  if start = stop then 0
  else
    let seg := (stop.1 - start.1, stop.2 - start.2)
    let proj := (point.1 - start.1, point.2 - start.2)
    clamp01 (dotQ proj seg / dotQ seg seg)

/-- Embeds `utils::dist` (named `distQ` because `dist` is taken by Mathlib). -/
def distQ (start stop : ℚ × ℚ) : ℚ :=
  sqrtQ ((start.1 - stop.1) ^ 2 + (start.2 - stop.2) ^ 2)

/-- Rust saturating `as i32` cast of an (already rounded) integer. -/
def satI32 (z : ℤ) : ℤ := min (max z (-2147483648)) 2147483647

/-- Embeds `ModelerParams` (src/params.rs).  Float fields are `ℚ`, `usize`
fields are `ℕ`. -/
structure ModelerParams where
  wobble_smoother_timeout : ℚ
  wobble_smoother_speed_floor : ℚ
  wobble_smoother_speed_ceiling : ℚ
  position_modeler_spring_mass_constant : ℚ
  position_modeler_drag_constant : ℚ
  sampling_min_output_rate : ℚ
  sampling_end_of_stroke_stopping_distance : ℚ
  sampling_end_of_stroke_max_iterations : ℕ
  sampling_max_outputs_per_call : ℕ
  stylus_state_modeler_max_input_samples : ℕ
deriving DecidableEq

/-- Embeds `ModelerParams::suggested`. -/
def ModelerParams.suggested : ModelerParams where
  wobble_smoother_timeout := 4 / 100
  wobble_smoother_speed_floor := 131 / 100
  wobble_smoother_speed_ceiling := 144 / 100
  position_modeler_spring_mass_constant := 11 / 32400
  position_modeler_drag_constant := 72
  sampling_min_output_rate := 180
  sampling_end_of_stroke_stopping_distance := 1 / 1000
  sampling_end_of_stroke_max_iterations := 20
  sampling_max_outputs_per_call := 20
  stylus_state_modeler_max_input_samples := 10

/-- The `parameter_tests` array of `ModelerParams::validate`, in source
order.  Note the source has no test for
`stylus_state_modeler_max_input_samples`. -/
def parameterTests (p : ModelerParams) : List Bool :=
  [ decide (0 < p.position_modeler_spring_mass_constant),
    decide (0 < p.position_modeler_drag_constant),
    decide (0 < p.sampling_min_output_rate),
    decide (0 < p.sampling_end_of_stroke_stopping_distance),
    decide (0 < p.sampling_end_of_stroke_max_iterations),
    decide (p.sampling_end_of_stroke_max_iterations < 1000),
    decide (0 < p.sampling_max_outputs_per_call),
    decide (0 < p.wobble_smoother_timeout),
    decide (0 < p.wobble_smoother_speed_floor),
    decide (0 < p.wobble_smoother_speed_ceiling),
    decide (p.wobble_smoother_speed_floor < p.wobble_smoother_speed_ceiling) ]

/-- The `errors` array of `ModelerParams::validate`, in source order. -/
def validateErrors : List String :=
  [ "`position_modeler_spring_mass_constant` is not positive; ",
    "`position_modeler_drag_constant` is not positive; ",
    "`sampling_min_output_rate` is not positive; ",
    "`sampling_end_of_stroke_stopping_distance` is not positive; ",
    "`sampling_end_of_stroke_max_iterations` is not positive; ",
    "`sampling_end_of_stroke_max_iterations` is too large (>1000); ",
    "`sampling_max_outputs_per_call` is not positive; ",
    "`wobble_smoother_timeout` is not positive; ",
    "`wobble_smoother_speed_floor` is not positive; ",
    "`wobble_smoother_speed_ceiling` is not positive; ",
    "`wobble_smoother_speed_floor` should be strictly smaller than `wobble_smoother_speed_ceiling`" ]

/-- Embeds `ModelerParams::validate`. -/
def ModelerParams.validate (p : ModelerParams) : Except String ModelerParams :=
  let tests := parameterTests p
  if tests.foldl (fun acc x => acc && x) true then .ok p
  else
    .error (((tests.zip validateErrors).filter fun x => !x.1).foldl
      (fun acc x => acc ++ x.2) "the following errors occured : ")

/-- Embeds `ModelerInputEventType` (the engine's Down/Move/Up revision). -/
inductive ModelerInputEventType where
  | Down
  | Move
  | Up
deriving DecidableEq

/-- Embeds `ModelerInput`. -/
structure ModelerInput where
  event_type : ModelerInputEventType
  pos : ℚ × ℚ
  time : ℚ
  pressure : ℚ
deriving DecidableEq

/-- Embeds `ModelerInput::default`. -/
instance : Inhabited ModelerInput :=
  ⟨{ event_type := .Down, pos := (0, 0), time := 0, pressure := 1 }⟩

/-- Embeds `ModelerResult` (src/results.rs). -/
structure ModelerResult where
  pos : ℚ × ℚ
  velocity : ℚ × ℚ
  acceleration : ℚ × ℚ
  time : ℚ
  pressure : ℚ
deriving DecidableEq

/-- Embeds `ModelerPartial` (src/results.rs). -/
structure ModelerPartial where
  pos : ℚ × ℚ
  velocity : ℚ × ℚ
  acceleration : ℚ × ℚ
  time : ℚ
deriving DecidableEq

/-- Embeds `PositionModeler` (src/position_modeler.rs). -/
structure PositionModeler where
  position_modeler_spring_mass_constant : ℚ
  position_modeler_drag_constant : ℚ
  state : ModelerPartial
deriving DecidableEq

/-- Embeds `PositionModeler::new`. -/
def PositionModeler.new (params : ModelerParams) (first_input : ModelerInput) :
    PositionModeler where
  position_modeler_spring_mass_constant := params.position_modeler_spring_mass_constant
  position_modeler_drag_constant := params.position_modeler_drag_constant
  state :=
    { pos := first_input.pos
      velocity := (0, 0)
      acceleration := (0, 0)
      time := first_input.time }

/-- Embeds `PositionModeler::update`: one spring-mass-drag Euler step toward
`anchor_pos` at target `time` (acceleration first, then velocity, then
position).  Returns the updated modeler and the new state (the source mutates
in place and returns `self.state.clone()`). -/
def PositionModeler.update (m : PositionModeler) (anchor_pos : ℚ × ℚ) (time : ℚ) :
    PositionModeler × ModelerPartial :=
  let delta_time := time - m.state.time
  let acceleration :=
    ((anchor_pos.1 - m.state.pos.1) / m.position_modeler_spring_mass_constant
        - m.position_modeler_drag_constant * m.state.velocity.1,
     (anchor_pos.2 - m.state.pos.2) / m.position_modeler_spring_mass_constant
        - m.position_modeler_drag_constant * m.state.velocity.2)
  let velocity :=
    (m.state.velocity.1 + delta_time * acceleration.1,
     m.state.velocity.2 + delta_time * acceleration.2)
  let pos :=
    (m.state.pos.1 + delta_time * velocity.1,
     m.state.pos.2 + delta_time * velocity.2)
  let st : ModelerPartial :=
    { pos := pos, velocity := velocity, acceleration := acceleration, time := time }
  ({ m with state := st }, st)

/-- Iteration `1..=n_steps` of `PositionModeler::update_along_linear_path`:
`i` is the current loop index, the `ℕ` argument the remaining step count. -/
def linPathAux (startPos : ℚ × ℚ) (startTime : ℚ) (endPos : ℚ × ℚ) (endTime : ℚ)
    (nSteps : ℤ) : PositionModeler → ℤ → ℕ → PositionModeler × List ModelerPartial
  | m, _, 0 => (m, [])
  | m, i, fuel + 1 =>
    let frac : ℚ := (i : ℚ) / (nSteps : ℚ)
    let anchor := (startPos.1 + frac * (endPos.1 - startPos.1),
                   startPos.2 + frac * (endPos.2 - startPos.2))
    let time := startTime + frac * (endTime - startTime)
    let step := m.update anchor time
    let rest := linPathAux startPos startTime endPos endTime nSteps step.1 (i + 1) fuel
    (rest.1, step.2 :: rest.2)

/-- Embeds `PositionModeler::update_along_linear_path`. -/
def PositionModeler.update_along_linear_path (m : PositionModeler) (start_pos : ℚ × ℚ)
    (start_time : ℚ) (end_pos : ℚ × ℚ) (end_time : ℚ) (n_steps : ℤ) :
    PositionModeler × List ModelerPartial :=
  linPathAux start_pos start_time end_pos end_time n_steps m 1 n_steps.toNat

/-- The loop of `PositionModeler::model_end_of_stroke`.  `initialState` is the
state saved on entry; every exit path restores it, exactly as the source does.
The `ℕ` argument is the remaining iteration budget (`max_iterations` minus the
iterations, emitting or not, already performed). -/
def modelEndOfStrokeAux (anchor_pos : ℚ × ℚ) (stop_distance : ℚ)
    (initialState : ModelerPartial) :
    ℕ → PositionModeler → ℚ → PositionModeler × List ModelerPartial
  | 0, m, _ => ({ m with state := initialState }, [])
  | fuel + 1, m, delta_time =>
    let previous_state := m.state
    let step := m.update anchor_pos (previous_state.time + delta_time)
    let candidate := step.2
    let m1 := step.1
    if distQ previous_state.pos candidate.pos < stop_distance then
      ({ m1 with state := initialState }, [])
    else if nearest_point_on_segment previous_state.pos candidate.pos anchor_pos < 1 then
      modelEndOfStrokeAux anchor_pos stop_distance initialState fuel
        { m1 with state := previous_state } (delta_time * (1 / 2))
    else if distQ candidate.pos anchor_pos < stop_distance then
      ({ m1 with state := initialState }, [candidate])
    else
      let rest := modelEndOfStrokeAux anchor_pos stop_distance initialState fuel m1 delta_time
      (rest.1, candidate :: rest.2)

/-- Embeds `PositionModeler::model_end_of_stroke`. -/
def PositionModeler.model_end_of_stroke (m : PositionModeler) (anchor_pos : ℚ × ℚ)
    (delta_time : ℚ) (max_iterations : ℕ) (stop_distance : ℚ) :
    PositionModeler × List ModelerPartial :=
  modelEndOfStrokeAux anchor_pos stop_distance m.state max_iterations m delta_time

/-- Embeds `StateModeler` (src/state_modeler.rs); the `VecDeque` is a list
with `push_back` appending and `pop_front` dropping the head. -/
structure StateModeler where
  stylus_state_modeler_max_input_samples : ℕ
  last_strokes : List ModelerInput
deriving DecidableEq

/-- Embeds `StateModeler::new`. -/
def StateModeler.new (param : ℕ) : StateModeler :=
  { stylus_state_modeler_max_input_samples := param, last_strokes := [] }

/-- Embeds `StateModeler::update`. -/
def StateModeler.update (sm : StateModeler) (input : ModelerInput) : StateModeler :=
  let pushed := sm.last_strokes ++ [input]
  if sm.stylus_state_modeler_max_input_samples < pushed.length then
    { sm with last_strokes := pushed.tail }
  else
    { sm with last_strokes := pushed }

/-- Embeds `StateModeler::reset`. -/
def StateModeler.reset (_sm : StateModeler) (max_input : ℕ) : StateModeler :=
  { stylus_state_modeler_max_input_samples := max_input, last_strokes := [] }

/-- One step of the best-segment fold inside `StateModeler::query`.  The
accumulator mirrors the loop variables `(distance, r, start_pressure,
end_pressure)`; the initial `f32::INFINITY` distance is modelled as `none`
(every computed distance is finite, so `d < INFINITY` is `true` exactly when
the accumulator still holds `none`). -/
def queryStep (pos : ℚ × ℚ) (acc : Option ℚ × ℚ × ℚ × ℚ)
    (pr : ModelerInput × ModelerInput) : Option ℚ × ℚ × ℚ × ℚ :=
  let rC := nearest_point_on_segment pr.1.pos pr.2.pos pos
  let pointC := interp2 pr.1.pos pr.2.pos rC
  let d := distQ pos pointC
  match acc.1 with
  | none => (some d, rC, pr.1.pressure, pr.2.pressure)
  | some best => if d < best then (some d, rC, pr.1.pressure, pr.2.pressure) else acc

/-- Embeds `StateModeler::query`. -/
def StateModeler.query (sm : StateModeler) (pos : ℚ × ℚ) : ℚ :=
  match sm.last_strokes with
  | [] => 1
  | [single] => single.pressure
  | _ :: _ :: _ =>
    let pairs := sm.last_strokes.zip sm.last_strokes.tail
    let best := pairs.foldl (queryStep pos) (none, 0, 1, 1)
    interp best.2.2.1 best.2.2.2 best.2.1

/-- Embeds `WobbleSample` (src/engine.rs). -/
structure WobbleSample where
  position : ℚ × ℚ
  weighted_position : ℚ × ℚ
  distance : ℚ
  duration : ℚ
  time : ℚ
deriving DecidableEq

/-- Embeds `StrokeModeler` (src/engine.rs); the `VecDeque` is a list whose
head is the deque front (its pre-sized capacity has no semantic content). -/
structure StrokeModeler where
  params : ModelerParams
  wobbleDeque : List WobbleSample
  wobbleWeightedPosSum : ℚ × ℚ
  wobbleDurationSum : ℚ
  wobbleDistanceSum : ℚ
  positionModeler : Option PositionModeler
  lastEvent : Option ModelerInput
  lastCorrectedEvent : Option (ℚ × ℚ)
  stateModeler : StateModeler
deriving DecidableEq

/-- Embeds `StrokeModeler::new`. -/
def StrokeModeler.new (params : ModelerParams) : Except String StrokeModeler :=
  match params.validate with
  | .error e => .error e
  | .ok _ =>
    .ok { params := params
          wobbleDeque := []
          wobbleWeightedPosSum := (0, 0)
          wobbleDurationSum := 0
          wobbleDistanceSum := 0
          positionModeler := none
          lastEvent := none
          lastCorrectedEvent := none
          stateModeler := StateModeler.new params.stylus_state_modeler_max_input_samples }

/-- Embeds `StrokeModeler::reset`.  Faithful to the source: it clears the
deque, the duration sum and the weighted-position sum but NOT
`wobble_distance_sum`, and it leaves `last_corrected_event` untouched. -/
def StrokeModeler.reset (s : StrokeModeler) : StrokeModeler :=
  { s with
    lastEvent := none
    wobbleDeque := []
    wobbleDurationSum := 0
    wobbleWeightedPosSum := (0, 0)
    positionModeler := none
    stateModeler := s.stateModeler.reset s.params.stylus_state_modeler_max_input_samples }

/-- Embeds `StrokeModeler::reset_w_params`.  Faithful to the source: the
`params` field itself is never replaced (the given parameters are only
validated and used to reset the state modeler), and `last_corrected_event`
is again left untouched. -/
def StrokeModeler.reset_w_params (s : StrokeModeler) (params : ModelerParams) :
    StrokeModeler × Except String Unit :=
  match params.validate with
  | .error e => (s, .error e)
  | .ok _ =>
    ({ s with
        lastEvent := none
        wobbleDeque := []
        wobbleDurationSum := 0
        wobbleWeightedPosSum := (0, 0)
        wobbleDistanceSum := 0
        positionModeler := none
        stateModeler := s.stateModeler.reset params.stylus_state_modeler_max_input_samples },
     .ok ())

/-- The front-eviction loop of `StrokeModeler::wobble_update`: pop samples
whose time is strictly below `limit = event.time - timeout`, subtracting their
contributions from the three running sums.  (The source calls
`front().unwrap()` to test the loop condition; on the empty deque that unwrap
would panic — the loop here simply stops, and the C10 theorem shows the
deque in fact never empties.) -/
def wobbleEvict (limit : ℚ) :
    List WobbleSample → (ℚ × ℚ) → ℚ → ℚ → List WobbleSample × (ℚ × ℚ) × ℚ × ℚ
  | [], w, dur, dis => ([], w, dur, dis)
  | f :: rest, w, dur, dis =>
    if f.time < limit then
      wobbleEvict limit rest
        (w.1 - f.weighted_position.1, w.2 - f.weighted_position.2)
        (dur - f.duration) (dis - f.distance)
    else (f :: rest, w, dur, dis)

/-- Embeds `StrokeModeler::wobble_update` (the `f64`-to-`f32` casts of the
source are identities on the exact-rational embedding). -/
def StrokeModeler.wobble_update (s : StrokeModeler) (event : ModelerInput) :
    StrokeModeler × (ℚ × ℚ) :=
  match s.wobbleDeque with
  | [] =>
    ({ s with
        wobbleDeque := [{ position := event.pos, weighted_position := (0, 0),
                          distance := 0, duration := 0, time := event.time }] },
     event.pos)
  | x :: xs =>
    let last_el := (x :: xs).getLast (List.cons_ne_nil x xs)
    let duration := event.time - last_el.time
    let weighted_pos := (event.pos.1 * duration, event.pos.2 * duration)
    let distance := sqrtQ ((event.pos.1 - last_el.position.1) ^ 2
                            + (event.pos.2 - last_el.position.2) ^ 2)
    let pushed := s.wobbleDeque ++
      [{ position := event.pos, weighted_position := weighted_pos,
         distance := distance, duration := duration, time := event.time }]
    let sums0 := (s.wobbleWeightedPosSum.1 + weighted_pos.1,
                  s.wobbleWeightedPosSum.2 + weighted_pos.2)
    let dis0 := s.wobbleDistanceSum + distance
    let dur0 := s.wobbleDurationSum + duration
    let ev := wobbleEvict (event.time - s.params.wobble_smoother_timeout) pushed sums0 dur0 dis0
    let s1 := { s with
                wobbleDeque := ev.1
                wobbleWeightedPosSum := ev.2.1
                wobbleDurationSum := ev.2.2.1
                wobbleDistanceSum := ev.2.2.2 }
    if s1.wobbleDurationSum < 1 / 1000000000000 then
      (s1, event.pos)
    else
      let avg_position := (s1.wobbleWeightedPosSum.1 / s1.wobbleDurationSum,
                           s1.wobbleWeightedPosSum.2 / s1.wobbleDurationSum)
      let avg_speed := s1.wobbleDistanceSum / s1.wobbleDurationSum
      let norm_value := normalize01_32 s1.params.wobble_smoother_speed_floor
        s1.params.wobble_smoother_speed_ceiling avg_speed
      (s1, (interp avg_position.1 event.pos.1 norm_value,
            interp avg_position.2 event.pos.2 norm_value))

/-- Embeds `StrokeModeler::update`.  The state is returned alongside the
`Result`; error arms leave it untouched, exactly as the early `return Err`
paths of the source do.  The `as_mut().unwrap()` calls of the source on
`position_modeler` (which the engine's state machine keeps from ever being
`None` at those points) are embedded as a `match` whose `none` arm returns an
error. -/
def StrokeModeler.update (s : StrokeModeler) (input : ModelerInput) :
    StrokeModeler × Except String (List ModelerResult) :=
  match input.event_type with
  | .Down =>
    match s.lastEvent with
    | some _ =>
      (s, .error "down event is not the first event or a down event occured after another one")
    | none =>
      let w := s.wobble_update input
      let s1 := w.1
      let s2 := { s1 with
                  positionModeler := some (PositionModeler.new s1.params input)
                  lastEvent := some input
                  lastCorrectedEvent := some input.pos
                  stateModeler :=
                    (s1.stateModeler.reset
                        s1.params.stylus_state_modeler_max_input_samples).update input }
      (s2, .ok [{ pos := input.pos, velocity := (0, 0), acceleration := (0, 0),
                  time := input.time, pressure := input.pressure }])
  | .Move =>
    match s.lastEvent with
    | none => (s, .error "no Down event occurred before a Move event")
    | some lastEv =>
      let latest_time := lastEv.time
      let new_time := input.time
      let s1 := { s with stateModeler := s.stateModeler.update input }
      let n_tsteps : ℤ :=
        min (satI32 ⌈(new_time - latest_time) * s1.params.sampling_min_output_rate⌉)
          2147483647
      let p_start := s1.lastCorrectedEvent.getD (0, 0)
      let w := s1.wobble_update input
      let s2 := w.1
      let p_end := w.2
      match s2.positionModeler with
      | none => (s2, .error "no position modeler")
      | some pm =>
        let lin := pm.update_along_linear_path p_start latest_time p_end new_time n_tsteps
        let vec_out := lin.2.map fun i =>
          ({ pos := i.pos, velocity := i.velocity, acceleration := i.acceleration,
             time := i.time, pressure := s2.stateModeler.query i.pos } : ModelerResult)
        ({ s2 with
            positionModeler := some lin.1
            lastEvent := some input
            lastCorrectedEvent := some p_end },
         .ok vec_out)
  | .Up =>
    match s.lastEvent with
    | none => (s, .error "No event occured before an up event")
    | some lastEv =>
      let latest_time := lastEv.time
      let new_time := input.time
      let s1 := { s with stateModeler := s.stateModeler.update input }
      let n_tsteps : ℤ :=
        min (satI32 ⌈(new_time - latest_time) * s1.params.sampling_min_output_rate⌉)
          2147483647
      let p_start := s1.lastCorrectedEvent.getD (0, 0)
      let w := s1.wobble_update input
      let s2 := w.1
      let p_end := w.2
      match s2.positionModeler with
      | none => (s2, .error "no position modeler")
      | some pm =>
        let lin := pm.update_along_linear_path p_start latest_time p_end new_time n_tsteps
        let eos := lin.1.model_end_of_stroke input.pos
          (1 / s2.params.sampling_min_output_rate)
          s2.params.sampling_end_of_stroke_max_iterations
          s2.params.sampling_end_of_stroke_stopping_distance
        let vec_out := (lin.2 ++ eos.2).map fun i =>
          ({ pos := i.pos, velocity := i.velocity, acceleration := i.acceleration,
             time := i.time, pressure := s2.stateModeler.query i.pos } : ModelerResult)
        let vec_fin :=
          if vec_out.isEmpty then
            [{ pos := eos.1.state.pos, velocity := eos.1.state.velocity,
               acceleration := eos.1.state.acceleration,
               time := eos.1.state.time + 1 / s2.params.sampling_min_output_rate,
               pressure := s2.stateModeler.query eos.1.state.pos }]
          else vec_out
        ({ s2 with positionModeler := some eos.1, lastEvent := none },
         .ok vec_fin)

/-- Embeds `StrokeModeler::predict`. -/
def StrokeModeler.predict (s : StrokeModeler) :
    StrokeModeler × Except String (List ModelerResult) :=
  match s.lastEvent with
  | none => (s, .error "empty input events")
  | some le =>
    match s.positionModeler with
    | none => (s, .error "no position modeler")
    | some pm =>
      let r := pm.model_end_of_stroke le.pos (1 / s.params.sampling_min_output_rate)
        s.params.sampling_end_of_stroke_max_iterations
        s.params.sampling_end_of_stroke_stopping_distance
      ({ s with positionModeler := some r.1 },
       .ok (r.2.map fun i =>
         { pos := i.pos, velocity := i.velocity, acceleration := i.acceleration,
           time := i.time, pressure := s.stateModeler.query i.pos }))

/-- Runs a sequence of `update` calls, collecting the result batch of each
call; `none` as soon as a call returns an error. -/
def runUpdates : StrokeModeler → List ModelerInput →
    Option (StrokeModeler × List (List ModelerResult))
  | s, [] => some (s, [])
  | s, i :: rest =>
    match s.update i with
    | (s', .ok batch) => (runUpdates s' rest).map fun pr => (pr.1, batch :: pr.2)
    | (_, .error _) => none

/-- One public operation on a `StrokeModeler`, for reachability statements. -/
inductive ModelerOp where
  | upd (i : ModelerInput)
  | resetOp
  | resetW (p : ModelerParams)
  | predictOp
deriving DecidableEq

/-- Applies one public operation (keeping only the state). -/
def applyOp (s : StrokeModeler) : ModelerOp → StrokeModeler
  | .upd i => (s.update i).1
  | .resetOp => s.reset
  | .resetW p => (s.reset_w_params p).1
  | .predictOp => s.predict.1

/-- Applies a list of public operations in order. -/
def runOps (s : StrokeModeler) (l : List ModelerOp) : StrokeModeler :=
  l.foldl applyOp s

set_option maxRecDepth 1000000

/-- Decidable equality for `Except`, used to evaluate the engine on concrete
inputs. -/
instance {ε α : Type} [DecidableEq ε] [DecidableEq α] : DecidableEq (Except ε α) := fun x y =>
  match x, y with
  | .ok a, .ok b => if h : a = b then .isTrue (by simp [h]) else .isFalse (by simp [h])
  | .error e, .error f => if h : e = f then .isTrue (by simp [h]) else .isFalse (by simp [h])
  | .ok _, .error _ => .isFalse (by simp)
  | .error _, .ok _ => .isFalse (by simp)

/-- A Down event with pressure 1 (concrete-input helper). -/
def mkDown (p : ℚ × ℚ) (t : ℚ) : ModelerInput :=
  { event_type := .Down, pos := p, time := t, pressure := 1 }

/-- A Move event with pressure 1 (concrete-input helper). -/
def mkMove (p : ℚ × ℚ) (t : ℚ) : ModelerInput :=
  { event_type := .Move, pos := p, time := t, pressure := 1 }

/-- An Up event with pressure 1 (concrete-input helper). -/
def mkUp (p : ℚ × ℚ) (t : ℚ) : ModelerInput :=
  { event_type := .Up, pos := p, time := t, pressure := 1 }

/-- The freshly constructed modeler for the suggested parameters (what
`StrokeModeler::new(ModelerParams::suggested())` returns). -/
def freshSuggested : StrokeModeler :=
  { params := ModelerParams.suggested
    wobbleDeque := []
    wobbleWeightedPosSum := (0, 0)
    wobbleDurationSum := 0
    wobbleDistanceSum := 0
    positionModeler := none
    lastEvent := none
    lastCorrectedEvent := none
    stateModeler := StateModeler.new 10 }

/-- Helper: a string fold only extends its accumulator on the right. -/
theorem foldlAppend_extends (l : List (Bool × String)) :
    ∀ acc : String, ∃ t, l.foldl (fun a x => a ++ x.2) acc = acc ++ t := by
  induction l with
  | nil => intro acc; exact ⟨"", (String.append_empty acc).symm⟩
  | cons hd tl ih =>
    intro acc
    obtain ⟨t, ht⟩ := ih (acc ++ hd.2)
    exact ⟨hd.2 ++ t, by simp only [List.foldl_cons, ht, String.append_assoc]⟩

/-- Helper: every string paired in the list appears inside the fold result. -/
theorem mem_foldlAppend (l : List (Bool × String)) :
    ∀ (acc : String) (b : Bool) (m : String), (b, m) ∈ l →
      ∃ pre post, l.foldl (fun a x => a ++ x.2) acc = pre ++ m ++ post := by
  induction l with
  | nil => intro acc b m h; exact absurd h (List.not_mem_nil _)
  | cons hd tl ih =>
    intro acc b m h
    rcases List.mem_cons.1 h with h1 | h2
    · obtain ⟨t, ht⟩ := foldlAppend_extends tl (acc ++ hd.2)
      refine ⟨acc, t, ?_⟩
      simp only [List.foldl_cons, ht]
      rw [← h1]
    · exact ih (acc ++ hd.2) b m h2

/-- Helper: success of `validate` is exactly the conjunction of the eleven
tests in `parameter_tests` (`stylus_state_modeler_max_input_samples` is not
among them). -/
theorem validate_ok_iff (p : ModelerParams) :
    (p.validate).isOk = true ↔
      (0 < p.position_modeler_spring_mass_constant ∧
       0 < p.position_modeler_drag_constant ∧
       0 < p.sampling_min_output_rate ∧
       0 < p.sampling_end_of_stroke_stopping_distance ∧
       0 < p.sampling_end_of_stroke_max_iterations ∧
       p.sampling_end_of_stroke_max_iterations < 1000 ∧
       0 < p.sampling_max_outputs_per_call ∧
       0 < p.wobble_smoother_timeout ∧
       0 < p.wobble_smoother_speed_floor ∧
       0 < p.wobble_smoother_speed_ceiling ∧
       p.wobble_smoother_speed_floor < p.wobble_smoother_speed_ceiling) := by
  unfold ModelerParams.validate
  dsimp only
  split
  · rename_i hc
    simp only [Except.isOk, Except.toBool, true_iff]
    simp only [parameterTests, List.foldl] at hc
    simp only [Bool.and_eq_true, decide_eq_true_iff] at hc
    tauto
  · rename_i hc
    simp only [Except.isOk, Except.toBool, Bool.false_eq_true, false_iff]
    simp only [parameterTests, List.foldl] at hc
    intro hprops
    apply hc
    simp only [Bool.and_eq_true, decide_eq_true_iff]
    tauto

/-- Helper: `new` succeeds exactly when `validate` does. -/
theorem new_isOk_eq (p : ModelerParams) :
    (StrokeModeler.new p).isOk = (p.validate).isOk := by
  unfold StrokeModeler.new
  cases h : p.validate <;> rfl

/-- Helper: a Boolean and-fold from a false accumulator stays false. -/
theorem foldl_and_false (l : List Bool) :
    l.foldl (fun acc x => acc && x) false = false := by
  induction l with
  | nil => rfl
  | cons hd tl ih => simp only [List.foldl_cons, Bool.false_and]; exact ih

/-- Helper: a Boolean and-fold over a list containing `false` is false. -/
theorem foldl_and_of_mem_false (l : List Bool) :
    ∀ acc : Bool, false ∈ l → l.foldl (fun acc x => acc && x) acc = false := by
  induction l with
  | nil => intro acc hx; exact absurd hx (List.not_mem_nil _)
  | cons hd tl ih =>
    intro acc hx
    rcases List.mem_cons.1 hx with h1 | h2
    · rw [← h1]
      simp only [List.foldl_cons, Bool.and_false]
      exact foldl_and_false tl
    · exact ih (acc && hd) h2

/-- Helper: each failing test contributes its message to the accumulated
error string. -/
theorem validate_error_reports (p : ModelerParams) (i : Fin 11)
    (h : (parameterTests p).getD i true = false) :
    ∃ pre post, p.validate = .error (pre ++ validateErrors.getD i "" ++ post) := by
  unfold ModelerParams.validate
  have hmem : (false, validateErrors.getD i "") ∈
      ((parameterTests p).zip validateErrors).filter fun x => !x.1 := by
    apply List.mem_filter.2
    constructor
    · fin_cases i <;>
        simp only [parameterTests, List.getD, List.get?, Option.getD] at h <;>
        simp [parameterTests, validateErrors, List.zip, List.zipWith, h, List.getD]
    · simp
  dsimp only
  split
  · rename_i hc
    exfalso
    have hfalse : (parameterTests p).foldl (fun acc x => acc && x) true = true := hc
    have hfmem : false ∈ parameterTests p := by
      fin_cases i <;>
        simp only [parameterTests, List.getD, List.get?, Option.getD] at h <;>
        simp [parameterTests, h]
    rw [foldl_and_of_mem_false _ true hfmem] at hfalse
    exact Bool.false_ne_true hfalse
  · obtain ⟨pre, post, hp⟩ :=
      mem_foldlAppend _ "the following errors occured : " false (validateErrors.getD i "") hmem
    exact ⟨pre, post, by rw [hp]⟩

/-- Parameters that satisfy every predicate `validate` actually checks but
violate the spec predicate `max_input_samples > 0`. -/
def c1Params : ModelerParams :=
  { ModelerParams.suggested with stylus_state_modeler_max_input_samples := 0 }

/-- C1 counterexample: `validate` (and hence `new`) succeeds on a parameter
set with `stylus_state_modeler_max_input_samples = 0`, so validation is not
complete with respect to the spec predicate `max_input_samples > 0`. -/
theorem C1_counterexample :
    c1Params.validate = .ok c1Params ∧
    (StrokeModeler.new c1Params).isOk = true ∧
    c1Params.stylus_state_modeler_max_input_samples = 0 :=
  ⟨by decide, by decide, rfl⟩

/-- C1 (amended): `StrokeModeler.new p` succeeds iff `p.validate()` succeeds;
`validate` succeeds iff the eleven checked predicates hold (K>0, D>0,
min_output_rate>0, stopping_distance>0, 1 ≤ max_iterations < 1000,
max_outputs_per_call>0, timeout>0, floor>0, ceiling>0, floor<ceiling) —
`max_input_samples > 0` is NOT checked; and every violated predicate (not
just the first) is reported in the accumulated error message. -/
theorem C1_amended (p : ModelerParams) :
    ((StrokeModeler.new p).isOk = (p.validate).isOk) ∧
    ((p.validate).isOk = true ↔
      (0 < p.position_modeler_spring_mass_constant ∧
       0 < p.position_modeler_drag_constant ∧
       0 < p.sampling_min_output_rate ∧
       0 < p.sampling_end_of_stroke_stopping_distance ∧
       0 < p.sampling_end_of_stroke_max_iterations ∧
       p.sampling_end_of_stroke_max_iterations < 1000 ∧
       0 < p.sampling_max_outputs_per_call ∧
       0 < p.wobble_smoother_timeout ∧
       0 < p.wobble_smoother_speed_floor ∧
       0 < p.wobble_smoother_speed_ceiling ∧
       p.wobble_smoother_speed_floor < p.wobble_smoother_speed_ceiling)) ∧
    (∀ i : Fin 11, (parameterTests p).getD i true = false →
      ∃ pre post, p.validate = .error (pre ++ validateErrors.getD i "" ++ post)) :=
  ⟨new_isOk_eq p, validate_ok_iff p, fun i h => validate_error_reports p i h⟩

/-- C4 (code evaluated at the failing input): after a Down at time 0, a Move
at the same time 0 yields `Ok` with an EMPTY result batch — the computed
`n_tsteps` is `ceil(0 * 180) = 0`, not at least 1 — contradicting both the
claim and `update`'s own doc comment ("results will contain at least one
Result"). -/
theorem C4_zero_dt_move_emits_nothing :
    ((runUpdates freshSuggested [mkDown (0, 0) 0, mkMove (1, 0) 0]).map fun pr =>
        pr.2.map List.length) = some [1, 0] ∧
    min (satI32 ⌈((0 : ℚ) - 0) * ModelerParams.suggested.sampling_min_output_rate⌉)
        2147483647 = 0 :=
  ⟨by decide, by decide⟩

/-- Helper: `wobble_update` only touches the wobble fields. -/
theorem wobble_update_fields (s : StrokeModeler) (e : ModelerInput) :
    (s.wobble_update e).1.params = s.params ∧
    (s.wobble_update e).1.positionModeler = s.positionModeler ∧
    (s.wobble_update e).1.lastEvent = s.lastEvent ∧
    (s.wobble_update e).1.lastCorrectedEvent = s.lastCorrectedEvent ∧
    (s.wobble_update e).1.stateModeler = s.stateModeler := by
  unfold StrokeModeler.wobble_update
  cases s.wobbleDeque with
  | nil => exact ⟨rfl, rfl, rfl, rfl, rfl⟩
  | cons x xs =>
    dsimp only
    split <;> exact ⟨rfl, rfl, rfl, rfl, rfl⟩

/-- C5: if an Up event's combined linear-path and catch-up emission is empty,
`update` returns exactly one synthetic result carrying the position modeler's
current state, with time `state.time + 1/min_output_rate`. -/
theorem C5_empty_up_synthetic (s s2 : StrokeModeler) (le input : ModelerInput)
    (pm pm1 pm2 : PositionModeler) (pStart pEnd : ℚ × ℚ)
    (hty : input.event_type = .Up)
    (hle : s.lastEvent = some le)
    (hcor : s.lastCorrectedEvent = some pStart)
    (hw : ({ s with stateModeler := s.stateModeler.update input } : StrokeModeler).wobble_update
        input = (s2, pEnd))
    (hpm : s2.positionModeler = some pm)
    (hlin : pm.update_along_linear_path pStart le.time pEnd input.time
        (min (satI32 ⌈(input.time - le.time) * s.params.sampling_min_output_rate⌉)
          2147483647) = (pm1, []))
    (heos : pm1.model_end_of_stroke input.pos (1 / s.params.sampling_min_output_rate)
        s.params.sampling_end_of_stroke_max_iterations
        s.params.sampling_end_of_stroke_stopping_distance = (pm2, [])) :
    (s.update input).2 = .ok
      [{ pos := pm2.state.pos, velocity := pm2.state.velocity,
         acceleration := pm2.state.acceleration,
         time := pm2.state.time + 1 / s.params.sampling_min_output_rate,
         pressure := (s.stateModeler.update input).query pm2.state.pos }] := by
  obtain ⟨par, wd, wps, wdu, wdi, po, lev, lce, sm⟩ := s
  dsimp only at hle hcor hw hlin heos ⊢
  subst hle
  subst hcor
  obtain ⟨hp, hpo, hlev, hlc, hsm⟩ :=
    wobble_update_fields
      ({ params := par, wobbleDeque := wd, wobbleWeightedPosSum := wps,
         wobbleDurationSum := wdu, wobbleDistanceSum := wdi, positionModeler := po,
         lastEvent := some le, lastCorrectedEvent := some pStart,
         stateModeler := sm.update input } : StrokeModeler) input
  have hfst :
      (({ params := par, wobbleDeque := wd, wobbleWeightedPosSum := wps,
          wobbleDurationSum := wdu, wobbleDistanceSum := wdi, positionModeler := po,
          lastEvent := some le, lastCorrectedEvent := some pStart,
          stateModeler := sm.update input } : StrokeModeler).wobble_update input).fst = s2 :=
    congrArg Prod.fst hw
  rw [hfst] at hp hsm
  dsimp only at hp hsm
  unfold StrokeModeler.update
  rw [hty]
  dsimp only
  rw [hw]
  dsimp only
  rw [hpm]
  dsimp only
  rw [hp, hsm]
  simp only [Option.getD]
  rw [hlin]
  dsimp only
  rw [heos]
  dsimp only [List.nil_append, List.map_nil, List.isEmpty_nil]
  rfl

/-- Witness state: the modeler right after a Down at the origin. -/
def c5S : StrokeModeler := (freshSuggested.update (mkDown (0, 0) 0)).1

/-- Witness input: an Up at the same position and time as the Down. -/
def c5Up : ModelerInput := mkUp (0, 0) 0

/-- Witness wobble step. -/
def c5W : StrokeModeler × (ℚ × ℚ) :=
  ({ c5S with stateModeler := c5S.stateModeler.update c5Up } : StrokeModeler).wobble_update c5Up

/-- Witness post-wobble state. -/
def c5S2 : StrokeModeler := c5W.1

/-- Witness corrected end position. -/
def c5PEnd : ℚ × ℚ := c5W.2

/-- Witness position modeler. -/
def c5Pm : PositionModeler :=
  c5S2.positionModeler.getD (PositionModeler.new ModelerParams.suggested default)

/-- Witness linear-path call. -/
def c5Lin : PositionModeler × List ModelerPartial :=
  c5Pm.update_along_linear_path (0, 0) (mkDown (0, 0) 0).time c5PEnd c5Up.time
    (min (satI32 ⌈(c5Up.time - (mkDown (0, 0) 0).time) * c5S.params.sampling_min_output_rate⌉)
      2147483647)

/-- Witness catch-up call. -/
def c5Eos : PositionModeler × List ModelerPartial :=
  c5Lin.1.model_end_of_stroke c5Up.pos (1 / c5S.params.sampling_min_output_rate)
    c5S.params.sampling_end_of_stroke_max_iterations
    c5S.params.sampling_end_of_stroke_stopping_distance

/-- C5 witness: a Down at the origin followed by an Up at the same time and
position emits nothing on the linear path and the catch-up, and `update`
returns exactly the one synthetic sample of `C5_empty_up_synthetic`. -/
theorem C5_empty_up_synthetic_witness :
    (c5S.update c5Up).2 = .ok
      [{ pos := c5Eos.1.state.pos, velocity := c5Eos.1.state.velocity,
         acceleration := c5Eos.1.state.acceleration,
         time := c5Eos.1.state.time + 1 / c5S.params.sampling_min_output_rate,
         pressure := (c5S.stateModeler.update c5Up).query c5Eos.1.state.pos }] :=
  C5_empty_up_synthetic c5S c5S2 (mkDown (0, 0) 0) c5Up c5Pm c5Lin.1 c5Eos.1 (0, 0) c5PEnd
    (by decide) (by decide) (by decide) (by decide) (by decide) (by decide) (by decide)

/-- C2 counterexample: after Down then Up (a completed stroke, no stroke in
progress), `last_event` is None but `position_modeler` and
`last_corrected_event` are still Some — the triplet does not go
None-together. -/
theorem C2_counterexample :
    ((runUpdates freshSuggested [mkDown (0, 0) 0, mkUp (0, 0) 0]).map fun pr =>
      (pr.1.lastEvent.isSome, pr.1.positionModeler.isSome, pr.1.lastCorrectedEvent.isSome)) =
      some (false, true, true) := by decide

/-- The direction of the optionality invariant that the code does maintain. -/
def InvC2 (s : StrokeModeler) : Prop :=
  (s.lastEvent.isSome = true → s.positionModeler.isSome = true) ∧
  (s.positionModeler.isSome = true → s.lastCorrectedEvent.isSome = true)

/-- Helper: a freshly constructed modeler has no in-progress state. -/
theorem new_ok_fields (p : ModelerParams) (s0 : StrokeModeler)
    (h : StrokeModeler.new p = .ok s0) :
    s0.lastEvent = none ∧ s0.positionModeler = none ∧ s0.lastCorrectedEvent = none := by
  unfold StrokeModeler.new at h
  cases hv : p.validate with
  | error e => rw [hv] at h; exact absurd h (by simp)
  | ok q =>
    rw [hv] at h
    injection h with h2
    rw [← h2]
    exact ⟨rfl, rfl, rfl⟩

/-- Helper: every public operation preserves `InvC2`. -/
theorem applyOp_invC2 (s : StrokeModeler) (op : ModelerOp) (h : InvC2 s) :
    InvC2 (applyOp s op) := by
  obtain ⟨par, wd, wps, wdu, wdi, po, lev, lce, sm⟩ := s
  obtain ⟨h1, h2⟩ := h
  dsimp only at h1 h2
  cases op with
  | resetOp =>
    exact ⟨fun hx => by simp [applyOp, StrokeModeler.reset] at hx,
           fun hx => by simp [applyOp, StrokeModeler.reset] at hx⟩
  | resetW p =>
    dsimp [applyOp, StrokeModeler.reset_w_params]
    cases hv : p.validate with
    | error e => exact ⟨h1, h2⟩
    | ok q =>
      exact ⟨fun hx => by simp at hx, fun hx => by simp at hx⟩
  | predictOp =>
    dsimp [applyOp, StrokeModeler.predict]
    cases lev with
    | none => exact ⟨h1, h2⟩
    | some le =>
      cases po with
      | none => exact ⟨h1, h2⟩
      | some pm =>
        exact ⟨fun _ => rfl, fun _ => h2 rfl⟩
  | upd i =>
    dsimp [applyOp]
    unfold StrokeModeler.update
    cases hty : i.event_type with
    | Down =>
      dsimp only
      cases lev with
      | some le => exact ⟨h1, h2⟩
      | none => exact ⟨fun _ => rfl, fun _ => rfl⟩
    | Move =>
      dsimp only
      cases lev with
      | none => exact ⟨h1, h2⟩
      | some le =>
        dsimp only
        obtain ⟨hp, hpo, hlev, hlc, hsm⟩ :=
          wobble_update_fields
            (⟨par, wd, wps, wdu, wdi, po, some le, lce, sm.update i⟩ : StrokeModeler) i
        dsimp only at hp hpo hlev hlc hsm
        cases hpm : ((⟨par, wd, wps, wdu, wdi, po, some le, lce, sm.update i⟩ :
            StrokeModeler).wobble_update i).1.positionModeler with
        | none =>
          have hponone : po = none := by rw [← hpo]; exact hpm
          have hcon := h1 rfl
          rw [hponone] at hcon
          exact absurd hcon (by simp)
        | some pm =>
          exact ⟨fun _ => rfl, fun _ => rfl⟩
    | Up =>
      dsimp only
      cases lev with
      | none => exact ⟨h1, h2⟩
      | some le =>
        dsimp only
        obtain ⟨hp, hpo, hlev, hlc, hsm⟩ :=
          wobble_update_fields
            (⟨par, wd, wps, wdu, wdi, po, some le, lce, sm.update i⟩ : StrokeModeler) i
        dsimp only at hp hpo hlev hlc hsm
        cases hpm : ((⟨par, wd, wps, wdu, wdi, po, some le, lce, sm.update i⟩ :
            StrokeModeler).wobble_update i).1.positionModeler with
        | none =>
          have hponone : po = none := by rw [← hpo]; exact hpm
          have hcon := h1 rfl
          rw [hponone] at hcon
          exact absurd hcon (by simp)
        | some pm =>
          have hpos : po = some pm := by rw [← hpo]; exact hpm
          refine ⟨fun hx => by simp at hx, fun _ => ?_⟩
          show ((⟨par, wd, wps, wdu, wdi, po, some le, lce, sm.update i⟩ :
            StrokeModeler).wobble_update i).1.lastCorrectedEvent.isSome = true
          rw [hlc]
          exact h2 (by rw [hpos]; rfl)

/-- Helper: `InvC2` is preserved along any operation sequence. -/
theorem runOps_invC2 (l : List ModelerOp) :
    ∀ s : StrokeModeler, InvC2 s → InvC2 (runOps s l) := by
  induction l with
  | nil => intro s h; exact h
  | cons op rest ih =>
    intro s h
    exact ih (applyOp s op) (applyOp_invC2 s op h)

/-- C2 (amended): over every reachable state the code maintains only the
one-directional invariant — if `last_event` is Some then `position_modeler`
and `last_corrected_event` are Some, and if `position_modeler` is Some then
`last_corrected_event` is Some.  The converses fail: after the Up that ends
a stroke, `position_modeler` and `last_corrected_event` stay Some with
`last_event` None (see the counterexample). -/
theorem C2_amended (p : ModelerParams) (s0 : StrokeModeler) (l : List ModelerOp)
    (h0 : StrokeModeler.new p = .ok s0) :
    ((runOps s0 l).lastEvent.isSome = true →
      (runOps s0 l).positionModeler.isSome = true ∧
      (runOps s0 l).lastCorrectedEvent.isSome = true) ∧
    ((runOps s0 l).positionModeler.isSome = true →
      (runOps s0 l).lastCorrectedEvent.isSome = true) := by
  obtain ⟨hle0, hpo0, _⟩ := new_ok_fields p s0 h0
  have hinv : InvC2 s0 := by
    constructor
    · intro hx; rw [hle0] at hx; exact absurd hx (by simp)
    · intro hx; rw [hpo0] at hx; exact absurd hx (by simp)
  obtain ⟨i1, i2⟩ := runOps_invC2 l s0 hinv
  exact ⟨fun hx => ⟨i1 hx, i2 (i1 hx)⟩, i2⟩

/-- C2 witness: the amended invariant instantiated on the suggested
parameters and the two-event sequence Down then Up. -/
theorem C2_amended_witness :
    ((runOps freshSuggested [.upd (mkDown (0, 0) 0), .upd (mkUp (0, 0) 0)]).lastEvent.isSome = true →
      (runOps freshSuggested [.upd (mkDown (0, 0) 0), .upd (mkUp (0, 0) 0)]).positionModeler.isSome = true ∧
      (runOps freshSuggested [.upd (mkDown (0, 0) 0), .upd (mkUp (0, 0) 0)]).lastCorrectedEvent.isSome = true) ∧
    ((runOps freshSuggested [.upd (mkDown (0, 0) 0), .upd (mkUp (0, 0) 0)]).positionModeler.isSome = true →
      (runOps freshSuggested [.upd (mkDown (0, 0) 0), .upd (mkUp (0, 0) 0)]).lastCorrectedEvent.isSome = true) :=
  C2_amended ModelerParams.suggested freshSuggested
    [.upd (mkDown (0, 0) 0), .upd (mkUp (0, 0) 0)] (by decide)

/-- Helper: eviction never removes a last element that is inside the time
window, so the deque stays non-empty with that element still at the back. -/
theorem wobbleEvict_keeps_getLast (limit : ℚ) :
    ∀ (l : List WobbleSample) (w : ℚ × ℚ) (dur dis : ℚ) (x : WobbleSample),
      l.getLast? = some x → ¬ x.time < limit →
      (wobbleEvict limit l w dur dis).1 ≠ [] ∧
      (wobbleEvict limit l w dur dis).1.getLast? = some x := by
  intro l
  induction l with
  | nil => intro w dur dis x hx _; exact absurd hx (by simp)
  | cons f rest ih =>
    intro w dur dis x hx hlim
    unfold wobbleEvict
    by_cases hf : f.time < limit
    · rw [if_pos hf]
      cases rest with
      | nil =>
        have hxf : x = f := by simpa using (by simpa using hx : f = x).symm
        rw [hxf] at hlim
        exact absurd hf hlim
      | cons r rs =>
        have hx2 : (r :: rs).getLast? = some x := by
          rw [List.getLast?_cons_cons] at hx; exact hx
        exact ih _ _ _ x hx2 hlim
    · rw [if_neg hf]
      exact ⟨by simp, hx⟩

/-- C10: with a positive `wobble_smoother_timeout`, the eviction loop of
`wobble_update` never removes the sample just pushed for the current event
(its time is the event's own time, within the window), so the deque is
non-empty after every call — the `front()`/`back()` unwraps of the source
never see an empty deque. -/
theorem C10_wobble_deque_nonempty (s : StrokeModeler) (e : ModelerInput)
    (h : 0 < s.params.wobble_smoother_timeout) :
    (s.wobble_update e).1.wobbleDeque ≠ [] ∧
    ∃ w : WobbleSample, (s.wobble_update e).1.wobbleDeque.getLast? = some w ∧
      w.time = e.time ∧ w.position = e.pos := by
  unfold StrokeModeler.wobble_update
  cases hd : s.wobbleDeque with
  | nil =>
    dsimp only
    exact ⟨by simp, (⟨e.pos, (0, 0), 0, 0, e.time⟩ : WobbleSample), by simp, rfl, rfl⟩
  | cons x xs =>
    dsimp only
    rw [apply_ite Prod.fst, ite_self]
    dsimp only
    have hnotlt : ¬ (e.time : ℚ) < e.time - s.params.wobble_smoother_timeout := by linarith
    refine ⟨(wobbleEvict_keeps_getLast _ _ _ _ _ _
              (List.getLast?_concat _) hnotlt).1,
            _, (wobbleEvict_keeps_getLast _ _ _ _ _ _
              (List.getLast?_concat _) hnotlt).2, rfl, rfl⟩

/-- C10 witness: instantiated on a fresh suggested-parameter modeler (whose
timeout 0.04 is positive) and a first event. -/
theorem C10_wobble_deque_nonempty_witness :
    (freshSuggested.wobble_update (mkDown (0, 0) 0)).1.wobbleDeque ≠ [] ∧
    ∃ w : WobbleSample,
      (freshSuggested.wobble_update (mkDown (0, 0) 0)).1.wobbleDeque.getLast? = some w ∧
      w.time = (mkDown (0, 0) 0).time ∧ w.position = (mkDown (0, 0) 0).pos :=
  C10_wobble_deque_nonempty freshSuggested (mkDown (0, 0) 0) (by decide)

/-- Helper: every exit path of the catch-up loop restores the saved entry
state (stall stop, overshoot halving, anchor-reached stop, and fuel
exhaustion alike). -/
theorem modelEndOfStrokeAux_fst (anchor : ℚ × ℚ) (sd : ℚ) (init : ModelerPartial) :
    ∀ (fuel : ℕ) (m : PositionModeler) (dt : ℚ),
      (modelEndOfStrokeAux anchor sd init fuel m dt).1 = { m with state := init } := by
  intro fuel
  induction fuel with
  | zero => intro m dt; rfl
  | succ k ih =>
    intro m dt
    unfold modelEndOfStrokeAux
    dsimp only
    split
    · rfl
    · split
      · rw [ih]; simp [PositionModeler.update]
      · split
        · rfl
        · dsimp only; rw [ih]; simp [PositionModeler.update]

/-- Helper: `model_end_of_stroke` returns the modeler it was given. -/
theorem model_end_of_stroke_fst (m : PositionModeler) (a : ℚ × ℚ) (dt : ℚ)
    (mi : ℕ) (sd : ℚ) : (m.model_end_of_stroke a dt mi sd).1 = m := by
  unfold PositionModeler.model_end_of_stroke
  rw [modelEndOfStrokeAux_fst]

/-- Helper: `predict` never changes the modeler state. -/
theorem predict_fst (s : StrokeModeler) : s.predict.1 = s := by
  unfold StrokeModeler.predict
  cases hle : s.lastEvent with
  | none => rfl
  | some le =>
    dsimp only
    cases hpm : s.positionModeler with
    | none => rfl
    | some pm =>
      dsimp only
      rw [model_end_of_stroke_fst, ← hpm, ← hle]

/-- C6: `model_end_of_stroke` restores the position modeler's persistent
state on every exit path (the returned modeler is the entry modeler), so
`predict()` — any number of times — leaves the `StrokeModeler` unchanged and
subsequent `update` calls are unaffected. -/
theorem C6_catch_up_non_mutation :
    (∀ (m : PositionModeler) (a : ℚ × ℚ) (dt : ℚ) (mi : ℕ) (sd : ℚ),
       (m.model_end_of_stroke a dt mi sd).1 = m) ∧
    (∀ s : StrokeModeler, s.predict.1 = s) ∧
    (∀ (s : StrokeModeler) (n : ℕ), (fun st : StrokeModeler => st.predict.1)^[n] s = s) ∧
    (∀ (s : StrokeModeler) (i : ModelerInput) (n : ℕ),
       ((fun st : StrokeModeler => st.predict.1)^[n] s).update i = s.update i) := by
  have hiter : ∀ (s : StrokeModeler) (n : ℕ),
      (fun st : StrokeModeler => st.predict.1)^[n] s = s := by
    intro s n
    induction n with
    | zero => rfl
    | succ k ih => rw [Function.iterate_succ_apply', ih, predict_fst]
  exact ⟨model_end_of_stroke_fst, predict_fst, hiter, fun s i n => by rw [hiter]⟩

/-- Helper: the catch-up loop emits at most one sample per loop iteration,
halving iterations included. -/
theorem modelEndOfStrokeAux_len (anchor : ℚ × ℚ) (sd : ℚ) (init : ModelerPartial) :
    ∀ (fuel : ℕ) (m : PositionModeler) (dt : ℚ),
      (modelEndOfStrokeAux anchor sd init fuel m dt).2.length ≤ fuel := by
  intro fuel
  induction fuel with
  | zero => intro m dt; exact Nat.le_refl 0
  | succ k ih =>
    intro m dt
    unfold modelEndOfStrokeAux
    dsimp only
    split
    · exact Nat.zero_le _
    · split
      · exact Nat.le_succ_of_le (ih _ _)
      · split
        · simp
        · dsimp only
          simp only [List.length_cons]
          exact Nat.succ_le_succ (ih _ _)

/-- C7: the catch-up terminates (it is a total function of its fuel) and
returns at most `max_iterations` samples, every loop iteration — including
overshoot-halving iterations that emit nothing — counting toward the bound. -/
theorem C7_catch_up_terminates_bounded (m : PositionModeler) (a : ℚ × ℚ) (dt : ℚ)
    (mi : ℕ) (sd : ℚ) : (m.model_end_of_stroke a dt mi sd).2.length ≤ mi :=
  modelEndOfStrokeAux_len a sd m.state mi m dt

/-- The C3 event sequence: a slow straight stroke whose wobble smoothing is
active (average speed 1 unit/s, below the 1.31 floor). -/
def c3Inputs : List ModelerInput :=
  [mkDown (0, 0) 0, mkMove (1 / 100, 0) (1 / 100), mkMove (2 / 100, 0) (2 / 100)]

/-- The fresh run of the C3 sequence. -/
def c3Fresh : StrokeModeler × List (List ModelerResult) :=
  (runUpdates freshSuggested c3Inputs).getD (freshSuggested, [])

/-- The replay of the C3 sequence after `reset()` on the used modeler. -/
def c3Replay : StrokeModeler × List (List ModelerResult) :=
  (runUpdates c3Fresh.1.reset c3Inputs).getD (freshSuggested, [])

/-- C3 (code evaluated at the failing input): `reset()` keeps the stale
`wobble_distance_sum` (1/50 from the first run), so replaying the same
accepted sequence after `reset()` yields a different result sequence than the
fresh run — the third call's positions differ (the stale distance sum lifts
the replay's average speed above the wobble ceiling, disabling smoothing),
while the first two calls still agree. -/
theorem C3_reset_not_roundtrip :
    (runUpdates freshSuggested c3Inputs).isSome = true ∧
    (runUpdates c3Fresh.1.reset c3Inputs).isSome = true ∧
    c3Fresh.1.reset.wobbleDistanceSum = 1 / 50 ∧
    ((c3Replay.2.getD 2 []).map fun r => r.pos) ≠ ((c3Fresh.2.getD 2 []).map fun r => r.pos) ∧
    ((c3Replay.2.getD 1 []).map fun r => r.pos) = ((c3Fresh.2.getD 1 []).map fun r => r.pos) :=
  ⟨by decide, by decide, by decide, by decide, by decide⟩

/-- The C9 counterexample sequence: a completed stroke whose Up emits a
synthetic sample ahead of input time, then a new Down slightly later. -/
def c9CexInputs : List ModelerInput :=
  [mkDown (0, 0) 0, mkUp (0, 0) 0, mkDown (3, 4) (1 / 1000)]

/-- The batches of the C9 counterexample run. -/
def c9CexBatches : List (List ModelerResult) :=
  ((runUpdates freshSuggested c9CexInputs).getD (freshSuggested, [])).2

/-- C9 counterexample: with non-decreasing input times (0, 0, 1/1000), the Up
call's last emitted time is 1/180 but the next call's first emitted time is
1/1000 < 1/180 — across-call order is violated after an Up. -/
theorem C9_counterexample :
    List.Chain' (· ≤ ·) (c9CexInputs.map fun i => i.time) ∧
    (runUpdates freshSuggested c9CexInputs).isSome = true ∧
    ((c9CexBatches.getD 1 []).getLast?.map fun r => r.time) = some (1 / 180) ∧
    ((c9CexBatches.getD 2 []).head?.map fun r => r.time) = some (1 / 1000) ∧
    ¬ ((1 : ℚ) / 180 ≤ 1 / 1000) :=
  ⟨by norm_num [c9CexInputs, mkDown, mkUp, List.chain'_cons],
   by decide, by decide, by decide, by decide⟩

/-- Time of one position-modeler step. -/
theorem update_snd_time (m : PositionModeler) (a : ℚ × ℚ) (t : ℚ) :
    (m.update a t).2.time = t := rfl

/-- State of one position-modeler step. -/
theorem update_fst_state_time (m : PositionModeler) (a : ℚ × ℚ) (t : ℚ) :
    (m.update a t).1.state.time = t := rfl

/-- Helper: specification of the linear-path upsampling loop — the emitted
times run from `st + (i/n)(et-st)` up to `et`, non-decreasingly, and the
final state time is `et` once at least one step ran. -/
theorem linPathAux_spec (sp ep : ℚ × ℚ) (st et : ℚ) (n : ℤ) (hst : st ≤ et) (hn : 0 < n) :
    ∀ (fuel : ℕ) (i : ℤ) (m : PositionModeler), 1 ≤ i → i + fuel = n + 1 →
      (∀ r ∈ (linPathAux sp st ep et n m i fuel).2,
          st + (i : ℚ) / (n : ℚ) * (et - st) ≤ r.time ∧ r.time ≤ et) ∧
      List.Chain' (fun a b : ModelerPartial => a.time ≤ b.time)
        (linPathAux sp st ep et n m i fuel).2 ∧
      (linPathAux sp st ep et n m i fuel).1.state.time =
        (if fuel = 0 then m.state.time else et) := by
  intro fuel
  induction fuel with
  | zero =>
    intro i m h1 hsum
    exact ⟨by simp [linPathAux], by simp [linPathAux], by simp [linPathAux]⟩
  | succ k ih =>
    intro i m h1 hsum
    have hiq : (1 : ℚ) ≤ (i : ℚ) := by exact_mod_cast h1
    have hin : (i : ℚ) ≤ (n : ℚ) := by
      have : i ≤ n := by omega
      exact_mod_cast this
    have hnq : (0 : ℚ) < (n : ℚ) := by exact_mod_cast hn
    have hfrac0 : (0 : ℚ) ≤ (i : ℚ) / (n : ℚ) := div_nonneg (by linarith) hnq.le
    have hfrac1 : (i : ℚ) / (n : ℚ) ≤ 1 := (div_le_one hnq).2 hin
    have hdt : (0 : ℚ) ≤ et - st := by linarith
    have htcur_le : st + (i : ℚ) / (n : ℚ) * (et - st) ≤ et := by nlinarith
    have hmono : st + (i : ℚ) / (n : ℚ) * (et - st) ≤
        st + ((i : ℚ) + 1) / (n : ℚ) * (et - st) := by
      have : (i : ℚ) / (n : ℚ) ≤ ((i : ℚ) + 1) / (n : ℚ) := by
        gcongr
        linarith
      nlinarith [this]
    obtain ⟨iha, ihb, ihc⟩ := ih (i + 1) ((m.update
      (sp.1 + (i : ℚ) / (n : ℚ) * (ep.1 - sp.1), sp.2 + (i : ℚ) / (n : ℚ) * (ep.2 - sp.2))
      (st + (i : ℚ) / (n : ℚ) * (et - st))).1) (by omega) (by omega)
    have hcast : ((i + 1 : ℤ) : ℚ) = (i : ℚ) + 1 := by push_cast; ring
    unfold linPathAux
    dsimp only
    refine ⟨?_, ?_, ?_⟩
    · intro r hr
      rcases List.mem_cons.1 hr with hhead | htail
      · rw [hhead, update_snd_time]
        exact ⟨le_refl _, htcur_le⟩
      · obtain ⟨hlo, hhi⟩ := iha r htail
        rw [hcast] at hlo
        exact ⟨le_trans hmono hlo, hhi⟩
    · rw [List.chain'_cons']
      refine ⟨?_, ihb⟩
      intro b hb
      have hbmem := List.mem_of_mem_head? hb
      obtain ⟨hlo, _⟩ := iha b hbmem
      rw [hcast] at hlo
      rw [update_snd_time]
      exact le_trans hmono hlo
    · rw [ihc]
      by_cases hk : k = 0
      · have hieq : i = n := by omega
        rw [if_pos hk, if_neg (Nat.succ_ne_zero k), update_fst_state_time, hieq]
        rw [div_self (ne_of_gt hnq)]
        ring
      · rw [if_neg hk, if_neg (Nat.succ_ne_zero k)]

/-- Helper: specification of `update_along_linear_path` — all emitted times
lie in `[st, et]` and are non-decreasing; with a non-positive step count
nothing happens, with a positive one the final state time is `et`. -/
theorem update_along_linear_path_spec (m : PositionModeler) (sp ep : ℚ × ℚ)
    (st et : ℚ) (n : ℤ) (hst : st ≤ et) :
    (∀ r ∈ (m.update_along_linear_path sp st ep et n).2, st ≤ r.time ∧ r.time ≤ et) ∧
    List.Chain' (fun a b : ModelerPartial => a.time ≤ b.time)
      (m.update_along_linear_path sp st ep et n).2 ∧
    (n ≤ 0 → m.update_along_linear_path sp st ep et n = (m, [])) ∧
    (0 < n → (m.update_along_linear_path sp st ep et n).1.state.time = et) := by
  by_cases hn : 0 < n
  · have hsum : (1 : ℤ) + n.toNat = n + 1 := by omega
    obtain ⟨ha, hb, hc⟩ := linPathAux_spec sp ep st et n hst hn n.toNat 1 m le_rfl hsum
    refine ⟨?_, hb, ?_, ?_⟩
    · intro r hr
      obtain ⟨hlo, hhi⟩ := ha r hr
      have hnq : (0 : ℚ) < (n : ℚ) := by exact_mod_cast hn
      have hfrac0 : (0 : ℚ) ≤ (1 : ℚ) / (n : ℚ) := by positivity
      have : st ≤ st + (1 : ℚ) / (n : ℚ) * (et - st) := by nlinarith
      refine ⟨le_trans this ?_, hhi⟩
      exact_mod_cast hlo
    · intro hle; omega
    · intro _
      unfold PositionModeler.update_along_linear_path
      rw [hc, if_neg ?_]
      omega
  · push_neg at hn
    have htn : n.toNat = 0 := by omega
    unfold PositionModeler.update_along_linear_path
    rw [htn]
    exact ⟨by simp [linPathAux], by simp [linPathAux], fun _ => rfl, fun h => absurd h (by omega)⟩

/-- Helper: the computed step count is nonnegative for a nonnegative time
delta, and it is zero only when the delta is zero. -/
theorem n_tsteps_facts (Δ rate : ℚ) (hΔ : 0 ≤ Δ) (hr : 0 < rate) :
    0 ≤ min (satI32 ⌈Δ * rate⌉) 2147483647 ∧
    (min (satI32 ⌈Δ * rate⌉) 2147483647 ≤ 0 → Δ = 0) := by
  have hz : (0 : ℤ) ≤ ⌈Δ * rate⌉ := Int.ceil_nonneg (mul_nonneg hΔ hr.le)
  unfold satI32
  constructor
  · apply le_min
    · exact le_min (le_max_of_le_left hz) (by norm_num)
    · norm_num
  · intro h
    have hC : ¬ ((2147483647 : ℤ) ≤ 0) := by norm_num
    have h1 : min (max ⌈Δ * rate⌉ (-2147483648)) 2147483647 ≤ 0 := by
      rcases min_le_iff.1 h with hca | hca
      · exact hca
      · exact absurd hca hC
    have h2 : max ⌈Δ * rate⌉ (-2147483648) ≤ 0 := by
      rcases min_le_iff.1 h1 with hca | hca
      · exact hca
      · exact absurd hca hC
    have h3 : ⌈Δ * rate⌉ ≤ 0 := le_trans (le_max_left _ _) h2
    have h4 : Δ * rate ≤ 0 := by exact_mod_cast Int.ceil_le.1 h3
    have h5 : Δ * rate = 0 := le_antisymm h4 (mul_nonneg hΔ hr.le)
    rcases mul_eq_zero.1 h5 with hca | hca
    · exact hca
    · exact absurd hca (ne_of_gt hr)

/-- Helper: catch-up samples all carry times strictly beyond the entry state
time, in non-decreasing order (each step advances by the current positive
delta, which halving keeps positive). -/
theorem modelEndOfStrokeAux_times (anchor : ℚ × ℚ) (sd : ℚ) (init : ModelerPartial) :
    ∀ (fuel : ℕ) (m : PositionModeler) (dt : ℚ), 0 < dt →
      (∀ r ∈ (modelEndOfStrokeAux anchor sd init fuel m dt).2, m.state.time < r.time) ∧
      List.Chain' (fun a b : ModelerPartial => a.time ≤ b.time)
        (modelEndOfStrokeAux anchor sd init fuel m dt).2 := by
  intro fuel
  induction fuel with
  | zero => intro m dt _; exact ⟨by simp [modelEndOfStrokeAux], by simp [modelEndOfStrokeAux]⟩
  | succ k ih =>
    intro m dt hdt
    unfold modelEndOfStrokeAux
    dsimp only
    split
    · exact ⟨by simp, by simp⟩
    · split
      · have hhalf : 0 < dt * (1 / 2) := by linarith
        exact ih _ _ hhalf
      · split
        · refine ⟨?_, by simp⟩
          intro r hr
          rw [List.mem_singleton.1 hr, update_snd_time]
          linarith
        · dsimp only
          obtain ⟨iha, ihb⟩ := ih (m.update anchor (m.state.time + dt)).1 dt hdt
          have hcand : (m.update anchor (m.state.time + dt)).2.time = m.state.time + dt :=
            update_snd_time m anchor (m.state.time + dt)
          have hm1 : (m.update anchor (m.state.time + dt)).1.state.time = m.state.time + dt :=
            update_fst_state_time m anchor (m.state.time + dt)
          constructor
          · intro r hr
            rcases List.mem_cons.1 hr with hhead | htail
            · rw [hhead, hcand]; linarith
            · have := iha r htail
              rw [hm1] at this
              linarith
          · rw [List.chain'_cons']
            refine ⟨?_, ihb⟩
            intro b hb
            have hbmem := List.mem_of_mem_head? hb
            have := iha b hbmem
            rw [hm1] at this
            rw [hcand]
            linarith

/-- The state invariant carried through a run for the ordering proof: a
positive output rate, and the position modeler clock agreeing with the last
event's time while a stroke is in progress. -/
def GoodS (s : StrokeModeler) : Prop :=
  0 < s.params.sampling_min_output_rate ∧
  ∀ le, s.lastEvent = some le →
    ∃ pm, s.positionModeler = some pm ∧ pm.state.time = le.time

/-- Times of one result batch are non-decreasing. -/
def batchChain (b : List ModelerResult) : Prop :=
  List.Chain' (fun x y : ModelerResult => x.time ≤ y.time) b

/-- Every result of the batch has time at least `t`. -/
def batchLB (t : ℚ) (b : List ModelerResult) : Prop := ∀ r ∈ b, t ≤ r.time

/-- Every result of the batch has time at most `t`. -/
def batchUB (t : ℚ) (b : List ModelerResult) : Prop := ∀ r ∈ b, r.time ≤ t

/-- Helper: what a single accepted `update` call guarantees about its batch
and successor state. -/
theorem update_call_spec (s : StrokeModeler) (i : ModelerInput)
    (batch : List ModelerResult) (hg : GoodS s) (hok : (s.update i).2 = .ok batch)
    (hts : ∀ le, s.lastEvent = some le → le.time ≤ i.time) :
    batchChain batch ∧
    (∀ le, s.lastEvent = some le → batchLB le.time batch) ∧
    (i.event_type ≠ .Up → batchUB i.time batch) ∧
    GoodS (s.update i).1 ∧
    (i.event_type ≠ .Up → (s.update i).1.lastEvent = some i) ∧
    (i.event_type = .Up → (s.update i).1.lastEvent = none) := by
  obtain ⟨par, wd, wps, wdu, wdi, po, lev, lce, sm⟩ := s
  obtain ⟨hrate, hinv⟩ := hg
  dsimp only at hrate hinv
  unfold StrokeModeler.update at hok ⊢
  cases hty : i.event_type with
  | Down =>
    dsimp only at hok ⊢
    cases lev with
    | some le => simp [hty] at hok
    | none =>
      rw [hty] at hok
      dsimp only at hok ⊢
      obtain ⟨hp, hpo, hlev, hlc, hsm⟩ :=
        wobble_update_fields (⟨par, wd, wps, wdu, wdi, po, none, lce, sm⟩ : StrokeModeler) i
      dsimp only at hp hpo hlev hlc hsm
      rw [hp]
      have hbatch := (Except.ok.inj hok).symm
      subst hbatch
      refine ⟨by simp [batchChain], ?_, ?_, ?_, fun _ => rfl, fun hup => by simp [hty] at hup⟩
      · intro le hle; exact absurd hle (by simp)
      · intro _ r hr
        rw [List.mem_singleton.1 hr]
      · refine ⟨hrate, ?_⟩
        intro le hle
        have hle2 : i = le := by simpa using hle
        subst hle2
        exact ⟨PositionModeler.new par i, rfl, rfl⟩
  | Move =>
    dsimp only at hok ⊢
    cases lev with
    | none => simp [hty] at hok
    | some le =>
      rw [hty] at hok
      dsimp only at hok ⊢
      obtain ⟨pm, hpo2, hpmt⟩ := hinv le rfl
      subst hpo2
      obtain ⟨hp, hpo, hlev, hlc, hsm⟩ :=
        wobble_update_fields
          (⟨par, wd, wps, wdu, wdi, some pm, some le, lce, sm.update i⟩ : StrokeModeler) i
      dsimp only at hp hpo hlev hlc hsm
      rw [hpo] at hok ⊢
      dsimp only at hok ⊢
      rw [hp]
      have hst : le.time ≤ i.time := hts le rfl
      have hΔ : (0 : ℚ) ≤ i.time - le.time := by linarith
      obtain ⟨hn0, hnz⟩ :=
        n_tsteps_facts (i.time - le.time) par.sampling_min_output_rate hΔ hrate
      obtain ⟨la, lb, lc, ld⟩ := update_along_linear_path_spec pm (lce.getD (0, 0))
        (((⟨par, wd, wps, wdu, wdi, some pm, some le, lce, sm.update i⟩ :
          StrokeModeler).wobble_update i).2) le.time i.time
        (min (satI32 ⌈(i.time - le.time) * par.sampling_min_output_rate⌉) 2147483647) hst
      have hbatch := (Except.ok.inj hok).symm
      subst hbatch
      refine ⟨?_, ?_, ?_, ?_, fun _ => rfl, fun hup => by simp [hty] at hup⟩
      · unfold batchChain
        rw [List.chain'_map]
        exact lb
      · intro le' hle'
        have hle2 : le = le' := by simpa using hle'
        subst hle2
        intro r hr
        obtain ⟨x, hx, hfx⟩ := List.mem_map.1 hr
        rw [← hfx]
        exact (la x hx).1
      · intro _ r hr
        obtain ⟨x, hx, hfx⟩ := List.mem_map.1 hr
        rw [← hfx]
        exact (la x hx).2
      · refine ⟨hrate, ?_⟩
        intro le' hle'
        have hle2 : i = le' := by simpa using hle'
        subst hle2
        refine ⟨_, rfl, ?_⟩
        by_cases hn : 0 < min (satI32 ⌈(i.time - le.time) * par.sampling_min_output_rate⌉)
            2147483647
        · exact ld hn
        · push_neg at hn
          have hΔ0 : i.time - le.time = 0 := hnz hn
          rw [lc hn, hpmt]
          linarith
  | Up =>
    dsimp only at hok ⊢
    cases lev with
    | none => simp [hty] at hok
    | some le =>
      rw [hty] at hok
      dsimp only at hok ⊢
      obtain ⟨pm, hpo2, hpmt⟩ := hinv le rfl
      subst hpo2
      obtain ⟨hp, hpo, hlev, hlc, hsm⟩ :=
        wobble_update_fields
          (⟨par, wd, wps, wdu, wdi, some pm, some le, lce, sm.update i⟩ : StrokeModeler) i
      dsimp only at hp hpo hlev hlc hsm
      rw [hpo] at hok ⊢
      dsimp only at hok ⊢
      rw [hp] at hok ⊢
      have hst : le.time ≤ i.time := hts le rfl
      have hΔ : (0 : ℚ) ≤ i.time - le.time := by linarith
      obtain ⟨hn0, hnz⟩ :=
        n_tsteps_facts (i.time - le.time) par.sampling_min_output_rate hΔ hrate
      obtain ⟨la, lb, lc, ld⟩ := update_along_linear_path_spec pm (lce.getD (0, 0))
        (((⟨par, wd, wps, wdu, wdi, some pm, some le, lce, sm.update i⟩ :
          StrokeModeler).wobble_update i).2) le.time i.time
        (min (satI32 ⌈(i.time - le.time) * par.sampling_min_output_rate⌉) 2147483647) hst
      have hltime : le.time ≤ (pm.update_along_linear_path (lce.getD (0, 0)) le.time
          (((⟨par, wd, wps, wdu, wdi, some pm, some le, lce, sm.update i⟩ :
            StrokeModeler).wobble_update i).2) i.time
          (min (satI32 ⌈(i.time - le.time) * par.sampling_min_output_rate⌉)
            2147483647)).1.state.time := by
        by_cases hn : 0 < min (satI32 ⌈(i.time - le.time) * par.sampling_min_output_rate⌉)
            2147483647
        · rw [ld hn]; exact hst
        · push_neg at hn
          rw [lc hn, hpmt]
      have hdtpos : 0 < 1 / par.sampling_min_output_rate := by positivity
      obtain ⟨ea, eb⟩ := modelEndOfStrokeAux_times i.pos
        par.sampling_end_of_stroke_stopping_distance
        ((pm.update_along_linear_path (lce.getD (0, 0)) le.time
          (((⟨par, wd, wps, wdu, wdi, some pm, some le, lce, sm.update i⟩ :
            StrokeModeler).wobble_update i).2) i.time
          (min (satI32 ⌈(i.time - le.time) * par.sampling_min_output_rate⌉)
            2147483647)).1.state)
        par.sampling_end_of_stroke_max_iterations
        ((pm.update_along_linear_path (lce.getD (0, 0)) le.time
          (((⟨par, wd, wps, wdu, wdi, some pm, some le, lce, sm.update i⟩ :
            StrokeModeler).wobble_update i).2) i.time
          (min (satI32 ⌈(i.time - le.time) * par.sampling_min_output_rate⌉)
            2147483647)).1)
        (1 / par.sampling_min_output_rate) hdtpos
      have hbatch := (Except.ok.inj hok).symm
      subst hbatch
      refine ⟨?_, ?_, fun hne => absurd rfl hne, ?_, fun hne => absurd rfl hne, fun _ => rfl⟩
      · unfold batchChain
        split
        · simp
        · rw [List.chain'_map]
          refine List.Chain'.append lb eb ?_
          intro x hx y hy
          have hxm := List.mem_of_getLast?_eq_some hx
          have hym := List.mem_of_mem_head? hy
          have hlne : (pm.update_along_linear_path (lce.getD (0, 0)) le.time
              (((⟨par, wd, wps, wdu, wdi, some pm, some le, lce, sm.update i⟩ :
                StrokeModeler).wobble_update i).2) i.time
              (min (satI32 ⌈(i.time - le.time) * par.sampling_min_output_rate⌉)
                2147483647)).2 ≠ [] := List.ne_nil_of_mem hxm
          have hn : 0 < min (satI32 ⌈(i.time - le.time) * par.sampling_min_output_rate⌉)
              2147483647 := by
            by_contra hcon
            push_neg at hcon
            rw [lc hcon] at hlne
            exact hlne rfl
          have h1 := (la x hxm).2
          have h2 := ea y hym
          rw [ld hn] at h2
          exact le_trans h1 h2.le
      · intro le' hle'
        have hle2 : le = le' := by simpa using hle'
        subst hle2
        intro r hr
        split at hr
        · rw [List.mem_singleton.1 hr]
          dsimp only
          rw [model_end_of_stroke_fst]
          have : le.time ≤ (pm.update_along_linear_path (lce.getD (0, 0)) le.time
              (((⟨par, wd, wps, wdu, wdi, some pm, some le, lce, sm.update i⟩ :
                StrokeModeler).wobble_update i).2) i.time
              (min (satI32 ⌈(i.time - le.time) * par.sampling_min_output_rate⌉)
                2147483647)).1.state.time := hltime
          linarith
        · obtain ⟨x, hx, hfx⟩ := List.mem_map.1 hr
          rw [← hfx]
          rcases List.mem_append.1 hx with hxl | hxe
          · exact (la x hxl).1
          · have := ea x hxe
            linarith
      · constructor
        · exact hrate
        · intro le' hle'
          exact absurd hle' (by simp)

/-- Helper: ordering guarantees accumulated along a whole accepted run. -/
theorem runUpdates_spec :
    ∀ (l : List ModelerInput) (s sf : StrokeModeler) (bs : List (List ModelerResult)),
      GoodS s →
      runUpdates s l = some (sf, bs) →
      List.Chain' (· ≤ ·) (l.map fun i => i.time) →
      (∀ le, s.lastEvent = some le → ∀ t ∈ (l.map fun i => i.time).head?, le.time ≤ t) →
      (∀ b ∈ bs, batchChain b) ∧
      (∀ le, s.lastEvent = some le → batchLB le.time (bs.getD 0 [])) ∧
      (∀ k : ℕ, (l.getD k default).event_type ≠ .Up →
        ∀ x ∈ bs.getD k [], ∀ y ∈ bs.getD (k + 1) [], x.time ≤ y.time) := by
  intro l
  induction l with
  | nil =>
    intro s sf bs hg hrun hmono hhead
    have hbs : bs = [] := by
      simp [runUpdates] at hrun
      exact hrun.2
    subst hbs
    refine ⟨by simp, ?_, ?_⟩
    · intro le hle
      intro r hr
      simp at hr
    · intro k hk x hx
      simp at hx
  | cons i rest ih =>
    intro s sf bs hg hrun hmono hhead
    rcases hu : s.update i with ⟨s', res⟩
    rw [runUpdates] at hrun
    rw [hu] at hrun
    cases res with
    | error e => simp at hrun
    | ok batch =>
      dsimp only at hrun
      rw [Option.map_eq_some'] at hrun
      obtain ⟨pr, hpr, hpr2⟩ := hrun
      have hsf : pr.1 = sf := congrArg Prod.fst hpr2
      have hbs : batch :: pr.2 = bs := congrArg Prod.snd hpr2
      subst hbs
      subst hsf
      have hok : (s.update i).2 = .ok batch := by rw [hu]
      have hts : ∀ le, s.lastEvent = some le → le.time ≤ i.time := by
        intro le hle
        have := hhead le hle (i.time) (by simp)
        exact this
      obtain ⟨c1, c2, c3, c4, c5, c6⟩ := update_call_spec s i batch hg hok hts
      rw [hu] at c4 c5 c6
      dsimp only at c4 c5 c6
      have hmono' : List.Chain' (· ≤ ·) (rest.map fun i => i.time) :=
        (List.chain'_cons'.1 (by simpa using hmono)).2
      have hheadrest : ∀ t ∈ (rest.map fun i => i.time).head?, i.time ≤ t :=
        (List.chain'_cons'.1 (by simpa using hmono)).1
      have hhead' : ∀ le, s'.lastEvent = some le →
          ∀ t ∈ (rest.map fun i => i.time).head?, le.time ≤ t := by
        intro le hle t ht
        by_cases hup : i.event_type = .Up
        · rw [c6 hup] at hle; simp at hle
        · rw [c5 hup] at hle
          have : i = le := by simpa using hle
          subst this
          exact hheadrest t ht
      obtain ⟨r1, r2, r3⟩ := ih s' pr.1 pr.2 c4 (by exact hpr) hmono' hhead'
      refine ⟨?_, ?_, ?_⟩
      · intro b hb
        rcases List.mem_cons.1 hb with hb1 | hb2
        · rw [hb1]; exact c1
        · exact r1 b hb2
      · intro le hle
        simpa using c2 le hle
      · intro k hk x hx y hy
        cases k with
        | zero =>
          simp only [List.getD_cons_zero] at hk hx
          simp only [List.getD_cons_succ] at hy
          have hub : x.time ≤ i.time := c3 hk x hx
          by_cases hup : i.event_type = .Up
          · exact absurd hup hk
          · have hlb := r2 i (c5 hup) y hy
            exact le_trans hub hlb
        | succ k2 =>
          simp only [List.getD_cons_succ] at hk hx hy
          exact r3 k2 hk x hx y hy

/-- Helper: a freshly constructed modeler satisfies the run invariant. -/
theorem new_ok_goodS (p : ModelerParams) (s0 : StrokeModeler)
    (h : StrokeModeler.new p = .ok s0) : GoodS s0 := by
  unfold StrokeModeler.new at h
  cases hv : p.validate with
  | error e => rw [hv] at h; exact absurd h (by simp)
  | ok q =>
    rw [hv] at h
    injection h with h2
    have hrate : 0 < p.sampling_min_output_rate := by
      have hok2 : (p.validate).isOk = true := by rw [hv]; rfl
      exact ((validate_ok_iff p).1 hok2).2.2.1
    rw [← h2]
    exact ⟨hrate, fun le hle => absurd hle (by simp)⟩

/-- C9 (amended): for every valid parameter set and accepted event sequence
with non-decreasing input times, the result times within each single update
call are non-decreasing, and across consecutive calls the earlier call's last
result time is at most the later call's first result time PROVIDED the
earlier call is not an Up — the Up call's end-of-stroke tail (and synthetic
sample) runs ahead of input time, so a following stroke's Down may legally
emit an earlier time (see the counterexample). -/
theorem C9_amended (p : ModelerParams) (s0 sf : StrokeModeler)
    (l : List ModelerInput) (bs : List (List ModelerResult))
    (h0 : StrokeModeler.new p = .ok s0)
    (hrun : runUpdates s0 l = some (sf, bs))
    (hmono : List.Chain' (· ≤ ·) (l.map fun i => i.time)) :
    (∀ b ∈ bs, List.Chain' (fun x y : ModelerResult => x.time ≤ y.time) b) ∧
    (∀ k : ℕ, (l.getD k default).event_type ≠ .Up →
      ∀ x ∈ (bs.getD k []).getLast?, ∀ y ∈ (bs.getD (k + 1) []).head?, x.time ≤ y.time) := by
  have hg := new_ok_goodS p s0 h0
  obtain ⟨hle0, _, _⟩ := new_ok_fields p s0 h0
  have hhead : ∀ le, s0.lastEvent = some le →
      ∀ t ∈ (l.map fun i => i.time).head?, le.time ≤ t := by
    intro le hle
    rw [hle0] at hle
    simp at hle
  obtain ⟨r1, r2, r3⟩ := runUpdates_spec l s0 sf bs hg hrun hmono hhead
  refine ⟨r1, ?_⟩
  intro k hk x hx y hy
  exact r3 k hk x (List.mem_of_getLast?_eq_some (Option.mem_def.1 hx))
    y (List.mem_of_mem_head? hy)

/-- The C9 witness sequence: a single Down. -/
def c9WitInputs : List ModelerInput := [mkDown (0, 0) 0]

/-- The C9 witness run. -/
def c9WitRun : StrokeModeler × List (List ModelerResult) :=
  (runUpdates freshSuggested c9WitInputs).getD (freshSuggested, [])

/-- C9 witness: the amended ordering statement instantiated on the suggested
parameters and a one-event run. -/
theorem C9_amended_witness :
    (∀ b ∈ c9WitRun.2, List.Chain' (fun x y : ModelerResult => x.time ≤ y.time) b) ∧
    (∀ k : ℕ, (c9WitInputs.getD k default).event_type ≠ .Up →
      ∀ x ∈ (c9WitRun.2.getD k []).getLast?,
        ∀ y ∈ (c9WitRun.2.getD (k + 1) []).head?, x.time ≤ y.time) :=
  C9_amended ModelerParams.suggested freshSuggested c9WitRun.1 c9WitInputs c9WitRun.2
    (by decide) (by decide) (by simp [c9WitInputs])
